import Mathlib

/-!
Verification of the call-record reconciliation subsystem of the
repsol-outbound-demo repository (src/lib/happyrobot.ts, src/lib/store.ts,
src/app/api/webhook/route.ts, src/app/api/call-result/route.ts).

The TypeScript code is shallowly embedded: JSON payloads become the
`JsonVal` inductive, JavaScript truthiness / string conversion / JSON.parse
are modelled explicitly, and each source function becomes a Lean function
of the same name.  Timestamp strings are kept as raw `JsonVal`s; the
wall-clock instant `Date.now()` is passed explicitly as a `now : Nat`
parameter (epoch milliseconds).
-/

set_option maxHeartbeats 1000000

namespace Repsol

/-! ## JSON values

A JSON tree, with arrays and objects as bespoke mutual inductives so that
every function on them is structural (and hence reduces by `rfl`).
Numbers are modelled as `mant / 10 ^ frac` pairs, enough for JSON's
integer-and-decimal literals (exponents are not produced by any payload in
the repository). -/

mutual

inductive JsonVal : Type where
  | null : JsonVal
  | bool (b : Bool) : JsonVal
  | num (mant : Int) (frac : Nat) : JsonVal
  | str (s : String) : JsonVal
  | arr (xs : JsonList) : JsonVal
  | obj (fs : JsonObj) : JsonVal

inductive JsonList : Type where
  | nil : JsonList
  | cons (v : JsonVal) (vs : JsonList) : JsonList

inductive JsonObj : Type where
  | nil : JsonObj
  | cons (k : String) (v : JsonVal) (fs : JsonObj) : JsonObj

end

/-- Helper building a `JsonVal` array from a Lean list literal. -/
def jlist : List JsonVal → JsonList
  | [] => .nil
  | v :: vs => .cons v (jlist vs)

/-- Helper building a `JsonVal` array from a Lean list literal. -/
def jarr (xs : List JsonVal) : JsonVal := .arr (jlist xs)

/-- Helper building a `JsonVal` object from a Lean list literal. -/
def jflds : List (String × JsonVal) → JsonObj
  | [] => .nil
  | (k, v) :: fs => .cons k v (jflds fs)

/-- Helper building a `JsonVal` object from a Lean list literal. -/
def jobj (fs : List (String × JsonVal)) : JsonVal := .obj (jflds fs)

/-- Lookup of a key in a JSON object.  Later duplicate keys shadow earlier
ones, as in a JavaScript object literal / `JSON.parse`. -/
def JsonObj.lookupKey : JsonObj → String → Option JsonVal
  | .nil, _ => none
  | .cons k v fs, key =>
    match JsonObj.lookupKey fs key with
    | some r => some r
    | none => if k = key then some v else none

/-- Property read `o.k` on a JSON value: `none` (JS `undefined`) unless the
value is an object holding the key. -/
def JsonVal.getField : JsonVal → String → Option JsonVal
  | .obj fs, key => fs.lookupKey key
  | _, _ => none

/-- Elements of a JSON array as a Lean list. -/
def JsonList.toList : JsonList → List JsonVal
  | .nil => []
  | .cons v vs => v :: JsonList.toList vs

/-- JavaScript truthiness of a value: `null`, `false`, `0` and `""` are
falsy, everything else (including `[]` and `\x7b\x7d`) is truthy. -/
def truthyV : JsonVal → Bool
  | .null => false
  | .bool b => b
  | .num m _ => m != 0
  | .str s => s != ""
  | .arr _ => true
  | .obj _ => true

/-- JavaScript truthiness of a possibly-absent value (`undefined` is falsy). -/
def truthy : Option JsonVal → Bool
  | none => false
  | some v => truthyV v

/-- First truthy value of a `a || b || ...` chain, if any. -/
def firstTruthy : List (Option JsonVal) → Option JsonVal
  | [] => none
  | o :: rest => if truthy o then o else firstTruthy rest

/-- Evaluation of `a || b || ... || dflt`. -/
def firstTruthyD (opts : List (Option JsonVal)) (dflt : JsonVal) : JsonVal :=
  (firstTruthy opts).getD dflt

/-- Optional-chaining property read `o?.k`. -/
def getFieldOpt (o : Option JsonVal) (key : String) : Option JsonVal :=
  match o with
  | none => none
  | some v => v.getField key

/-- Test `v === "s"` for a possibly-absent value. -/
def isStrO (o : Option JsonVal) (s : String) : Bool :=
  match o with
  | some (.str t) => t = s
  | _ => false

/-- Nullish filtering: `??` skips only `null`/`undefined`. -/
def nullishOf (o : Option JsonVal) : Option JsonVal :=
  match o with
  | some .null => none
  | _ => o

/-- Decimal rendering of the number `mant / 10 ^ frac` the way JavaScript's
`String()` renders the corresponding literal. -/
def numToString (mant : Int) (frac : Nat) : String :=
  if frac = 0 then toString mant
  else
    let digits := toString mant.natAbs
    let digits := String.mk (List.replicate (frac + 1 - digits.length) '0') ++ digits
    let intLen := digits.length - frac
    (if mant < 0 then "-" else "") ++ digits.take intLen ++ "." ++ digits.drop intLen

mutual

/-- JavaScript `String(v)` conversion (arrays join their elements with
commas, rendering `null` as the empty string; objects render as
"[object Object]"). -/
def jsToString : JsonVal → String
  | .null => "null"
  | .bool true => "true"
  | .bool false => "false"
  | .num m e => numToString m e
  | .str s => s
  | .arr xs => jsListToString xs
  | .obj _ => "[object Object]"

/-- JavaScript `String()` of the elements of an array. -/
def jsListToString : JsonList → String
  | .nil => ""
  | .cons v vs =>
    (match v with
     | .null => ""
     | w => jsToString w)
    ++ (match vs with
        | .nil => ""
        | ws => "," ++ jsListToString ws)

end

/-- JavaScript `String(v)` where `v` may be absent (`undefined`). -/
def jsToStringU (o : Option JsonVal) : String :=
  match o with
  | none => "undefined"
  | some v => jsToString v

/-- First truthy value of a chain, rendered as a string (model of the
`(a || b || c) as string` pattern); `dflt` when all are falsy. -/
def pickStr (opts : List (Option JsonVal)) (dflt : String) : String :=
  match firstTruthy opts with
  | some v => jsToString v
  | none => dflt

/-! ## A model of `JSON.parse`

Recursive-descent parser for JSON texts, used to model the
`JSON.parse(fc.arguments || "\x7b\x7d")` call inside `extractToolCalls`.
Exponent notation in numbers is not supported (no payload in the
repository produces it); everything else — `null`, booleans, decimal
numbers without leading zeros, strings with escapes, arrays, objects —
follows the JSON grammar, and trailing garbage is rejected, as
`JSON.parse` does. -/

/-- Opening brace character (written via its code point). -/
def lbraceChar : Char := Char.ofNat 123

/-- Closing brace character (written via its code point). -/
def rbraceChar : Char := Char.ofNat 125

/-- Drop leading JSON whitespace. -/
def skipWs : List Char → List Char
  | c :: cs => if c = ' ' ∨ c = '\t' ∨ c = '\n' ∨ c = '\r' then skipWs cs else c :: cs
  | [] => []

/-- Hexadecimal value of a character, if it is a hex digit. -/
def hexVal (c : Char) : Option Nat :=
  if '0' ≤ c ∧ c ≤ '9' then some (c.toNat - '0'.toNat)
  else if 'a' ≤ c ∧ c ≤ 'f' then some (c.toNat - 'a'.toNat + 10)
  else if 'A' ≤ c ∧ c ≤ 'F' then some (c.toNat - 'A'.toNat + 10)
  else none

/-- Parse the remainder of a JSON string literal (after the opening quote),
accumulating characters; rejects raw control characters and bad escapes. -/
def parseStrRest : List Char → List Char → Option (String × List Char)
  | '"' :: rest, acc => some (String.mk acc.reverse, rest)
  | '\\' :: 'u' :: h1 :: h2 :: h3 :: h4 :: rest, acc =>
    (match hexVal h1, hexVal h2, hexVal h3, hexVal h4 with
     | some a, some b, some c, some d =>
       parseStrRest rest (Char.ofNat (((a * 16 + b) * 16 + c) * 16 + d) :: acc)
     | _, _, _, _ => none)
  | '\\' :: e :: rest, acc =>
    (match e with
     | '"' => parseStrRest rest ('"' :: acc)
     | '\\' => parseStrRest rest ('\\' :: acc)
     | '/' => parseStrRest rest ('/' :: acc)
     | 'b' => parseStrRest rest (Char.ofNat 8 :: acc)
     | 'f' => parseStrRest rest (Char.ofNat 12 :: acc)
     | 'n' => parseStrRest rest ('\n' :: acc)
     | 'r' => parseStrRest rest ('\r' :: acc)
     | 't' => parseStrRest rest ('\t' :: acc)
     | _ => none)
  | c :: rest, acc => if c.toNat < 32 then none else parseStrRest rest (c :: acc)
  | [], _ => none

/-- Split a leading run of decimal digits off a character list. -/
def takeDigits : List Char → List Char × List Char
  | c :: rest =>
    if c.isDigit then
      let (ds, r) := takeDigits rest
      (c :: ds, r)
    else ([], c :: rest)
  | [] => ([], [])

/-- Numeric value of a digit run. -/
def digitsToNat (ds : List Char) : Nat :=
  ds.foldl (fun a c => a * 10 + (c.toNat - '0'.toNat)) 0

/-- Parse a JSON number literal (integer or decimal, optional leading minus,
no leading zeros, no exponent). -/
def parseNum (cs : List Char) : Option (JsonVal × List Char) :=
  let (neg, cs1) := match cs with
    | '-' :: r => (true, r)
    | r => (false, r)
  let (ids, cs2) := takeDigits cs1
  if ids = [] then none
  else if 2 ≤ ids.length ∧ ids.headD '0' = '0' then none
  else
    match cs2 with
    | '.' :: r =>
      let (fds, cs3) := takeDigits r
      if fds = [] then none
      else
        let m : Int := (digitsToNat (ids ++ fds) : Int)
        some (.num (if neg then -m else m) fds.length, cs3)
    | _ =>
      let m : Int := (digitsToNat ids : Int)
      some (.num (if neg then -m else m) 0, cs2)

/-- Parse one JSON value, fuel-bounded.  Array and object element lists are
parsed by re-entering the function on a re-bracketed remainder, so the
whole parser is a single structural recursion on the fuel. -/
def parseVal : Nat → List Char → Option (JsonVal × List Char)
  | 0, _ => none
  | fuel + 1, cs =>
    match skipWs cs with
    | 'n' :: 'u' :: 'l' :: 'l' :: r => some (.null, r)
    | 't' :: 'r' :: 'u' :: 'e' :: r => some (.bool true, r)
    | 'f' :: 'a' :: 'l' :: 's' :: 'e' :: r => some (.bool false, r)
    | '"' :: r => (parseStrRest r []).map (fun p => (.str p.1, p.2))
    | '[' :: r =>
      (match skipWs r with
       | ']' :: r2 => some (.arr .nil, r2)
       | r2 =>
         match parseVal fuel r2 with
         | none => none
         | some (v, r3) =>
           match skipWs r3 with
           | ',' :: r4 =>
             (match parseVal fuel ('[' :: r4) with
              | some (.arr xs, r5) => some (.arr (.cons v xs), r5)
              | _ => none)
           | ']' :: r4 => some (.arr (.cons v .nil), r4)
           | _ => none)
    | c :: r =>
      if c = lbraceChar then
        match skipWs r with
        | c2 :: r2 =>
          if c2 = rbraceChar then some (.obj .nil, r2)
          else if c2 = '"' then
            match parseStrRest r2 [] with
            | none => none
            | some (k, r3) =>
              match skipWs r3 with
              | ':' :: r4 =>
                (match parseVal fuel r4 with
                 | none => none
                 | some (v, r5) =>
                   match skipWs r5 with
                   | ',' :: r6 =>
                     (match parseVal fuel (lbraceChar :: r6) with
                      | some (.obj fs, r7) => some (.obj (.cons k v fs), r7)
                      | _ => none)
                   | c3 :: r6 =>
                     if c3 = rbraceChar then some (.obj (.cons k v .nil), r6)
                     else none
                   | [] => none)
              | _ => none
          else none
        | [] => none
      else if c = '-' ∨ c.isDigit then parseNum (c :: r)
      else none
    | [] => none

/-- Model of JavaScript `JSON.parse` on a string: parse one value, require
only whitespace after it.  `none` models the thrown `SyntaxError`. -/
def jsonParse (s : String) : Option JsonVal :=
  match parseVal (2 * s.length + 2) s.toList with
  | some (v, rest) => if skipWs rest = [] then some v else none
  | none => none

/-! ## Data model (src/types.ts, part_000)

`ParsedCall` mirrors the TypeScript interface.  Fields typed `string` in
TypeScript but populated from arbitrary payload values through an `as`
cast are kept as raw `JsonVal`s (`status`, `timestamp`, the outcome
attributes); fields the code manipulates as strings after a JavaScript
string conversion are `String`/`Option String`.  An absent optional key
and a key present with value `undefined` are both modelled as `none`. -/

inductive CallOutcome : Type where
  | escalated | qualified | price_recorded | callback | decision_maker
  | voicemail | closed | in_progress | unknown
deriving DecidableEq, Repr

inductive NegotiationResult : Type where
  | aligned | negotiable | out_of_market
deriving DecidableEq, Repr

structure ParsedCall : Type where
  id : String
  phone : String
  contactName : Option String := none
  companyName : Option String := none
  status : JsonVal
  outcome : CallOutcome
  phaseReached : Nat
  duration : Option JsonVal := none
  timestamp : JsonVal
  completedAt : Option JsonVal := none
  toolsCalled : List String
  negotiationResult : Option NegotiationResult := none
  callbackDate : Option JsonVal := none
  callbackTime : Option JsonVal := none
  callbackNotes : Option JsonVal := none
  decisionMakerName : Option JsonVal := none
  purchaseType : Option JsonVal := none
  annualConsumption : Option JsonVal := none
  closeReason : Option JsonVal := none
  clientPrice : Option JsonVal := none
  sessionId : Option JsonVal := none
  isDemo : Option Bool := none

/-- One pending pre-registered contact (src/lib/store.ts, `PendingCall`).
`storedAt` is the `Date.now()` instant of registration, in milliseconds. -/
structure PendingCall : Type where
  phone : String
  contactName : Option String := none
  companyName : Option String := none
  referencePrice : Option JsonVal := none
  priceMin : Option JsonVal := none
  priceMax : Option JsonVal := none
  storedAt : Nat

/-- One extracted tool invocation (src/lib/happyrobot.ts, `ToolCall`). -/
structure ToolCall : Type where
  name : String
  params : JsonVal
  response : JsonVal

/-! ## Schema extractor (src/lib/happyrobot.ts, `extractToolCalls`)

The function can throw in JavaScript (a `for..of` over a truthy
non-iterable value, and `JSON.parse` on a malformed `arguments` string),
so its model returns `Except String`. -/

/-- Elements a JavaScript `for..of` loop would visit: arrays yield their
elements, strings their characters; any other truthy value throws a
`TypeError`. -/
def iterableOf (v : JsonVal) : Except String (List JsonVal)
  := match v with
  | .arr xs => .ok xs.toList
  | .str s => .ok (s.toList.map (fun c => .str (String.mk [c])))
  | _ => .error "TypeError: not iterable"

/-- Whether a plain JavaScript property read `x.k` succeeds: it throws a
`TypeError` when `x` is `null` (or `undefined`, which cannot occur as an
array element of a JSON payload) and yields a value — possibly
`undefined` — on every other value, primitives included. -/
def propAccessOk (v : JsonVal) : Bool :=
  match v with
  | .null => false
  | _ => true

/-- Target of the `for (const msg of (session.messages || session.transcript
|| []))` loop. -/
def msgsTarget (session : JsonVal) : JsonVal :=
  firstTruthyD [session.getField "messages", session.getField "transcript"] (jarr [])

/-- Concatenation of per-element invocation lists, mirroring the `for`
loops that push into the shared `toolCalls` array; the first thrown error
propagates. -/
def collectE {alpha : Type} (f : alpha → Except String (List ToolCall)) :
    List alpha → Except String (List ToolCall)
  | [] => .ok []
  | x :: xs => do
    let hd ← f x
    let rest ← collectE f xs
    .ok (hd ++ rest)

/-- Tool invocations contributed by one v2 `sessions[].messages` entry.
A `null` message element makes the `msg.type` read throw a `TypeError`. -/
def toolCallsOfMsg (msg : JsonVal) : Except String (List ToolCall) :=
  if propAccessOk msg then
    .ok (if isStrO (msg.getField "type") "tool_call" || isStrO (msg.getField "role") "tool" then
      [{ name := pickStr [msg.getField "tool_name", msg.getField "function",
                          msg.getField "name"] "unknown",
         params := firstTruthyD [msg.getField "input_parameters", msg.getField "parameters",
                                 msg.getField "arguments"] (jobj []),
         response := firstTruthyD [msg.getField "response", msg.getField "result"] (jobj []) }]
    else [])
  else .error "TypeError: Cannot read properties of null"

/-- Tool invocations contributed by one v2 session.  A `null` session
element makes the `session.messages` read throw a `TypeError`. -/
def toolCallsOfSession (session : JsonVal) : Except String (List ToolCall) :=
  if propAccessOk session then do
    let msgs ← iterableOf (msgsTarget session)
    collectE toolCallsOfMsg msgs
  else .error "TypeError: Cannot read properties of null"

/-- String handed to `JSON.parse` for a serialized `function_call`:
the `arguments` value when truthy (converted as JavaScript would), the
empty-object text otherwise. -/
def argStringOf (fc : JsonVal) : String :=
  if truthy (fc.getField "arguments") then jsToStringU (fc.getField "arguments")
  else "\x7b\x7d"

/-- Tool invocations contributed by one v1 `events[]` entry.  A `null`
event element makes the `event.integration_name` read throw a
`TypeError`, and the `JSON.parse` of a serialized `function_call`'s
`arguments` is NOT wrapped in a try/catch in the source: a decode failure
propagates as an error. -/
def toolCallsOfEvent (event : JsonVal) : Except String (List ToolCall) :=
  if propAccessOk event then do
  let aiCalls ←
    if isStrO (event.getField "integration_name") "AI" then do
      let output := event.getField "output"
      let resp := getFieldOpt output "response"
      let named :=
        if truthy (getFieldOpt resp "tool_name") || truthy (getFieldOpt resp "function_name") then
          [{ name := pickStr [getFieldOpt resp "tool_name",
                              getFieldOpt resp "function_name"] "undefined",
             params := firstTruthyD [getFieldOpt resp "parameters",
                                     getFieldOpt resp "input_parameters"] (jobj []),
             response := jobj [] : ToolCall }]
        else []
      if truthy (getFieldOpt resp "function_call") then do
        let fc := (getFieldOpt resp "function_call").getD .null
        match jsonParse (argStringOf fc) with
        | some params =>
          .ok (named ++ [{ name := pickStr [fc.getField "name"] "unknown",
                           params := params, response := jobj [] : ToolCall }])
        | none => .error "SyntaxError: Unexpected token in JSON"
      else .ok named
    else .ok []
  let directCalls :=
    if isStrO (event.getField "type") "tool_call" then
      [{ name := pickStr [event.getField "tool_name", event.getField "name"] "unknown",
         params := firstTruthyD [event.getField "input_parameters",
                                 event.getField "parameters"] (jobj []),
         response := firstTruthyD [event.getField "response"] (jobj []) : ToolCall }]
    else []
  .ok (aiCalls ++ directCalls)
  else .error "TypeError: Cannot read properties of null"

/-- The `run.sessions` read followed by the `if (sessions) \x7b for (const
session of sessions) ... \x7d` block of `extractToolCalls`; the read
itself throws when `run` is `null`. -/
def sessionsToolCalls (run : JsonVal) : Except String (List ToolCall) :=
  if propAccessOk run then
    if truthy (run.getField "sessions") then do
      let sessions ← iterableOf ((run.getField "sessions").getD .null)
      collectE toolCallsOfSession sessions
    else .ok []
  else .error "TypeError: Cannot read properties of null"

/-- The `run.events` read followed by the `if (events) \x7b for (const
event of events) ... \x7d` block of `extractToolCalls`; the read itself
throws when `run` is `null`. -/
def eventsToolCalls (run : JsonVal) : Except String (List ToolCall) :=
  if propAccessOk run then
    if truthy (run.getField "events") then do
      let events ← iterableOf ((run.getField "events").getD .null)
      collectE toolCallsOfEvent events
    else .ok []
  else .error "TypeError: Cannot read properties of null"

/-- Model of `extractToolCalls`: v2 `sessions[].messages` invocations
followed by v1 `events[]` invocations. -/
def extractToolCalls (run : JsonVal) : Except String (List ToolCall) := do
  let v2 ← sessionsToolCalls run
  let v1 ← eventsToolCalls run
  .ok (v2 ++ v1)

/-! ## Scalar extraction and classification (src/lib/happyrobot.ts) -/

/-- Elements a `for..of` loop visits, for contexts where `extractToolCalls`
has already run and thrown on non-iterables (so the non-iterable case is
unreachable and modelled as the empty iteration). -/
def iterListOf (v : JsonVal) : List JsonVal :=
  match v with
  | .arr xs => xs.toList
  | .str s => s.toList.map (fun c => .str (String.mk [c]))
  | _ => []

/-- Model of `getCallDuration`'s per-session probe:
`if (s.duration) return s.duration; if (s.output?.duration) return it`. -/
def sessionDuration (s : JsonVal) : Option JsonVal :=
  if truthy (s.getField "duration") then s.getField "duration"
  else if truthy (getFieldOpt (s.getField "output") "duration") then
    getFieldOpt (s.getField "output") "duration"
  else none

/-- Model of `getCallDuration`'s per-event probe:
`if (e.type === "session" && e.output?.duration) return it`. -/
def eventDuration (e : JsonVal) : Option JsonVal :=
  if isStrO (e.getField "type") "session" ∧
     truthy (getFieldOpt (e.getField "output") "duration") then
    getFieldOpt (e.getField "output") "duration"
  else none

/-- First hit of a probe over a list, mirroring an early-`return` loop. -/
def firstHit (f : JsonVal → Option JsonVal) : List JsonVal → Option JsonVal
  | [] => none
  | x :: xs =>
    match f x with
    | some r => some r
    | none => firstHit f xs

/-- Model of `new Date(v).getTime()`.  A numeric value is its own epoch
instant; ISO-8601 date-string parsing is beyond this embedding and is
abstracted as `none` (`NaN`).  No claim depends on the derived-duration
value, only on `parseRun` being a total function of the payload. -/
def dateMs (v : JsonVal) : Option Int :=
  match v with
  | .num m 0 => some m
  | _ => none

/-- Model of `getCallDuration`: explicit `sessions[].duration`, then
`sessions[].output.duration`, then an events session-entry's
`output.duration`, then `Math.round((completed_at - timestamp)/1000)` when
both instants parse and the difference is positive. -/
def getCallDuration (run : JsonVal) : Option JsonVal :=
  match firstHit sessionDuration
      (if truthy (run.getField "sessions") then
        iterListOf ((run.getField "sessions").getD .null) else []) with
  | some r => some r
  | none =>
    match firstHit eventDuration
        (if truthy (run.getField "events") then
          iterListOf ((run.getField "events").getD .null) else []) with
    | some r => some r
    | none =>
      if truthy (run.getField "timestamp") ∧ truthy (run.getField "completed_at") then
        match dateMs ((run.getField "timestamp").getD .null),
              dateMs ((run.getField "completed_at").getD .null) with
        | some start, some stop =>
          if start < stop then some (.num ((stop - start + 500) / 1000) 0) else none
        | _, _ => none
      else none

/-- Model of `getPhoneNumber`'s per-session probe:
`phone_numbers?.to`, then `to_number`. -/
def sessionPhone (s : JsonVal) : Option JsonVal :=
  if truthy (getFieldOpt (s.getField "phone_numbers") "to") then
    getFieldOpt (s.getField "phone_numbers") "to"
  else if truthy (s.getField "to_number") then s.getField "to_number"
  else none

/-- Model of `getPhoneNumber`: `sessions[].phone_numbers.to` →
`sessions[].to_number` → `metadata.phone_number` → empty string. -/
def getPhoneNumber (run : JsonVal) : String :=
  match firstHit sessionPhone
      (if truthy (run.getField "sessions") then
        iterListOf ((run.getField "sessions").getD .null) else []) with
  | some r => jsToString r
  | none =>
    if truthy (getFieldOpt (run.getField "metadata") "phone_number") then
      jsToStringU (getFieldOpt (run.getField "metadata") "phone_number")
    else ""

/-- Model of `getContactInfo`: `metadata || trigger_data || input_data ||
\x7b\x7d`, probed for `contact_name`/`nombre`/`name` and
`company_name`/`empresa`/`company`. -/
def getContactInfo (run : JsonVal) : Option String × Option String :=
  let meta := firstTruthyD [run.getField "metadata", run.getField "trigger_data",
                            run.getField "input_data"] (jobj [])
  ((firstTruthy [meta.getField "contact_name", meta.getField "nombre",
                 meta.getField "name"]).map jsToString,
   (firstTruthy [meta.getField "company_name", meta.getField "empresa",
                 meta.getField "company"]).map jsToString)

/-- Model of `determineOutcome`: fixed-priority first-match table over the
invoked tool names. -/
def determineOutcome (toolNames : List String) : CallOutcome :=
  if toolNames.contains "escalate_to_commercial" then .escalated
  else if toolNames.contains "record_price_expectation" then .price_recorded
  else if toolNames.contains "record_qualified_lead" then .qualified
  else if toolNames.contains "schedule_callback" then .callback
  else if toolNames.contains "request_decision_maker_contact" then .decision_maker
  else if toolNames.contains "report_voicemail" then .voicemail
  else if toolNames.contains "close_polite" then .closed
  else .unknown

/-- Model of `inferPhase`: note its priority order differs from
`determineOutcome`'s (voicemail is probed before decision-maker and
callback), and its default is 0. -/
def inferPhase (toolNames : List String) : Nat :=
  if toolNames.contains "escalate_to_commercial" then 5
  else if toolNames.contains "record_price_expectation" then 5
  else if toolNames.contains "record_qualified_lead" then 4
  else if toolNames.contains "report_voicemail" then 0
  else if toolNames.contains "request_decision_maker_contact" then 1
  else if toolNames.contains "schedule_callback" then 2
  else if toolNames.contains "close_polite" then 2
  else 0

/-- Model of `parseRun`.  `extractToolCalls` runs first and its exception
(if any) propagates, so the result is an `Except`. -/
def parseRun (run : JsonVal) : Except String ParsedCall := do
  let toolCalls ← extractToolCalls run
  let toolNames := toolCalls.map (·.name)
  let status := (run.getField "status").getD .null
  let outcome := if isStrO (run.getField "status") "running" then CallOutcome.in_progress
                 else determineOutcome toolNames
  let phaseReached := inferPhase toolNames
  let priceCall := toolCalls.find? (·.name = "record_price_expectation")
  let negotiationResult :=
    match priceCall with
    | none => none
    | some pc =>
      let r := firstTruthy [pc.params.getField "negotiation_result",
                            pc.response.getField "negotiation_result"]
      if isStrO r "aligned" then some NegotiationResult.aligned
      else if isStrO r "negotiable" then some NegotiationResult.negotiable
      else if isStrO r "out_of_market" then some NegotiationResult.out_of_market
      else none
  let closeCall := toolCalls.find? (·.name = "close_polite")
  let closeReason := firstTruthy [getFieldOpt (closeCall.map (·.params)) "reason",
                                  getFieldOpt (closeCall.map (·.params)) "message"]
  let cbCall := toolCalls.find? (·.name = "schedule_callback")
  let dmCall := toolCalls.find? (·.name = "request_decision_maker_contact")
  let contact := getContactInfo run
  .ok {
    id := jsToStringU (run.getField "id"),
    phone := getPhoneNumber run,
    contactName := contact.1,
    companyName := contact.2,
    status := status,
    outcome := outcome,
    phaseReached := phaseReached,
    duration := getCallDuration run,
    timestamp := (run.getField "timestamp").getD .null,
    completedAt := run.getField "completed_at",
    toolsCalled := toolNames,
    negotiationResult := negotiationResult,
    callbackDate := getFieldOpt (cbCall.map (·.params)) "date",
    callbackTime := getFieldOpt (cbCall.map (·.params)) "time",
    callbackNotes := getFieldOpt (cbCall.map (·.params)) "notes",
    decisionMakerName := getFieldOpt (dmCall.map (·.params)) "name",
    closeReason := closeReason,
    clientPrice := getFieldOpt (priceCall.map (·.params)) "client_price" }

/-! ## Call record store (src/lib/store.ts)

The `Map<string, ParsedCall>` is modelled as an insertion-ordered
association list; `Map.set` replaces in place when the key exists and
appends otherwise, exactly as the JavaScript map behaves. -/

/-- Truthiness of an optional string (`undefined` and `""` are falsy). -/
def optTruthy : Option String → Bool
  | some s => s ≠ ""
  | none => false

/-- The `a || b` fallback on optional strings. -/
def strOr (a b : Option String) : Option String :=
  if optTruthy a then a else b

abbrev RunStore := List (String × ParsedCall)

/-- Model of `Map.set`: replace in place if the key exists, else append. -/
def setRun : RunStore → String → ParsedCall → RunStore
  | [], k, v => [(k, v)]
  | (k', v') :: rest, k, v =>
    if k' = k then (k', v) :: rest else (k', v') :: setRun rest k v

/-- The merge `\x7b...existing, ...call, phone: call.phone ||
existing.phone, contactName: ..., companyName: ...\x7d` performed by
`upsertRun` when a record with the same id already exists: every field
comes from the incoming record except that the three contact fields fall
back to the existing record's values when the incoming ones are empty or
absent.  (Optional keys the incoming producer omits entirely are modelled
as `none`, i.e. as overwriting; no claim observes those fields after a
producer that omits keys.) -/
def mergeCall (existing call : ParsedCall) : ParsedCall :=
  { call with
    phone := if call.phone = "" then existing.phone else call.phone,
    contactName := strOr call.contactName existing.contactName,
    companyName := strOr call.companyName existing.companyName }

/-- Model of `upsertRun`. -/
def upsertRun (call : ParsedCall) (store : RunStore) : RunStore :=
  match store.lookup call.id with
  | some existing => setRun store call.id (mergeCall existing call)
  | none => setRun store call.id call

/-- Input of `storePendingCall` (a `PendingCall` without `storedAt`). -/
structure PendingData : Type where
  phone : String
  contactName : Option String := none
  companyName : Option String := none
  referencePrice : Option JsonVal := none
  priceMin : Option JsonVal := none
  priceMax : Option JsonVal := none

/-- Model of `storePendingCall`: append with the current instant, then
drop the oldest entries beyond the fixed capacity of 20. -/
def storePendingCall (data : PendingData) (now : Nat)
    (store : List PendingCall) : List PendingCall :=
  let l := store ++ [{ phone := data.phone, contactName := data.contactName,
                       companyName := data.companyName,
                       referencePrice := data.referencePrice,
                       priceMin := data.priceMin, priceMax := data.priceMax,
                       storedAt := now }]
  if 20 < l.length then l.drop (l.length - 20) else l

/-- One step of the `reduce` inside `popRecentPendingCall`: entries older
than the TTL keep the current best; otherwise the entry replaces the best
when there is none yet or when it is strictly more recent (the entry
alongside the index stands in for `pendingCallStore[best]`). -/
def betterPending (now ttl i : Nat) (c : PendingCall)
    (best : Option (Nat × PendingCall)) : Option (Nat × PendingCall) :=
  if ttl < now - c.storedAt then best
  else
    match best with
    | none => some (i, c)
    | some (b, cb) => if cb.storedAt < c.storedAt then some (i, c) else some (b, cb)

/-- The `reduce` inside `popRecentPendingCall`: index and entry of the most
recently stored entry within the TTL window, scanning left to right,
strict `>` so the earliest of equals wins. -/
def findBestPending (now ttl : Nat) :
    List PendingCall → Nat → Option (Nat × PendingCall) → Option (Nat × PendingCall)
  | [], _, best => best
  | c :: rest, i, best =>
    findBestPending now ttl rest (i + 1) (betterPending now ttl i c best)

/-- Model of `popRecentPendingCall`: select the most recently stored entry
not older than `ttl`, remove it (`splice(idx, 1)`), and return it together
with the updated store; `(none, store)` when no entry qualifies. -/
def popRecentPendingCall (now ttl : Nat) (store : List PendingCall) :
    Option PendingCall × List PendingCall :=
  match findBestPending now ttl store 0 none with
  | none => (none, store)
  | some (i, c) => (some c, store.eraseIdx i)

/-! ## Phone-indexed late update

`updateRecentRunByPhone` is imported by the call-result route from
`@/lib/store` but its definition is not among the provided sources (only
its caller is).  It is therefore modelled from the spec. -/

/-- Partial-field update passed by the call-result route (fields wrapped in
`...(x !== undefined && \x7bx\x7d)` spreads are optional). -/
structure RunUpdates : Type where
  outcome : CallOutcome
  status : JsonVal
  phaseReached : Nat
  toolsCalled : List String
  clientPrice : Option JsonVal := none
  negotiationResult : Option NegotiationResult := none
  callbackDate : Option JsonVal := none
  callbackTime : Option JsonVal := none
  callbackNotes : Option JsonVal := none
  decisionMakerName : Option JsonVal := none
  closeReason : Option JsonVal := none
  duration : Option JsonVal := none

/-- Application of the partial update to one record: always-present fields
overwrite, optional fields only when present. -/
def applyUpdates (c : ParsedCall) (u : RunUpdates) : ParsedCall :=
  { c with
    outcome := u.outcome,
    status := u.status,
    phaseReached := u.phaseReached,
    toolsCalled := u.toolsCalled,
    clientPrice := u.clientPrice.orElse (fun _ => c.clientPrice),
    negotiationResult := u.negotiationResult.orElse (fun _ => c.negotiationResult),
    callbackDate := u.callbackDate.orElse (fun _ => c.callbackDate),
    callbackTime := u.callbackTime.orElse (fun _ => c.callbackTime),
    callbackNotes := u.callbackNotes.orElse (fun _ => c.callbackNotes),
    decisionMakerName := u.decisionMakerName.orElse (fun _ => c.decisionMakerName),
    closeReason := u.closeReason.orElse (fun _ => c.closeReason),
    duration := u.duration.orElse (fun _ => c.duration) }

/-- The most recent entry of the store whose record has the given phone,
scanning from the most recently inserted end, with its index. -/
def lastMatchByPhone : RunStore → String → Nat → Option (Nat × String × ParsedCall)
  | [], _, _ => none
  | (k, c) :: rest, phone, i =>
    match lastMatchByPhone rest phone (i + 1) with
    | some r => some r
    | none => if c.phone = phone then some (i, k, c) else none

/-- Modelled from the spec: `updateRecentRunByPhone` (imported by the
call-result route from `@/lib/store`, definition missing from the provided
sources).  Per §4.5 of the spec it finds the records matching the given
phone number, selects the most recently created/updated match — modelled
as the latest matching entry in the store's insertion order, since a JS
`Map` iterates in insertion order — applies the partial update to it, and
returns whether a match was found. -/
def updateRecentRunByPhone (phone : String) (updates : RunUpdates)
    (store : RunStore) : Bool × RunStore :=
  match lastMatchByPhone store phone 0 with
  | none => (false, store)
  | some (i, k, c) => (true, store.set i (k, applyUpdates c updates))

/-- The `PHASE_FOR_OUTCOME` table of the call-result route
(src/app/api/call-result/route.ts). -/
def PHASE_FOR_OUTCOME : CallOutcome → Nat
  | .escalated => 6
  | .price_recorded => 5
  | .qualified => 4
  | .callback => 3
  | .decision_maker => 2
  | .voicemail => 1
  | .closed => 2
  | .in_progress => 1
  | .unknown => 3

/-! ## Webhook ingestion (src/app/api/webhook/route.ts)

The POST handler is modelled as a state transformer on the two stores.
`fetchRunById` performs network I/O; its failure path (`null`, the
"API enrichment failed — using CloudEvents data only" branch) is the
behaviour modelled here, matching the spec's degraded-mode contract.  The
route-level `try/catch` turns a thrown extraction error into a 400
response with the stores untouched, so an erroring `parseRun` leaves the
state unchanged. -/

/-- The two process-wide stores. -/
structure Sys : Type where
  runs : RunStore
  pending : List PendingCall

/-- Whether a payload takes the CloudEvents branch
(`body.specversion && body.data`). -/
def isCloudEvents (body : JsonVal) : Bool :=
  truthy (body.getField "specversion") && truthy (body.getField "data")

/-- The `statusObj?.current ?? "unknown"` value of a CloudEvents payload. -/
def currentOf (body : JsonVal) : JsonVal :=
  (nullishOf (getFieldOpt (getFieldOpt (body.getField "data") "status") "current")).getD
    (.str "unknown")

/-- The basic `ParsedCall` the webhook builds from CloudEvents data alone
when API enrichment fails. -/
def cloudEventsFallbackCall (body : JsonVal) (now : Nat) : ParsedCall :=
  let eventData := (body.getField "data").getD .null
  let current := currentOf body
  let mappedStatus : String :=
    if isStrO (some current) "in-progress" then "running"
    else if isStrO (some current) "completed" then "completed"
    else if isStrO (some current) "failed" then "failed"
    else "running"
  { id := jsToStringU (eventData.getField "run_id"),
    phone := "",
    status := .str mappedStatus,
    outcome := if mappedStatus = "running" then .in_progress else .unknown,
    phaseReached := if mappedStatus = "running" then 1 else 3,
    timestamp := (nullishOf (body.getField "time")).getD (.num now 0),
    completedAt := if isStrO (some current) "completed" then
        nullishOf (getFieldOpt (getFieldOpt (body.getField "data") "status") "updated_at")
      else none,
    toolsCalled := [],
    isDemo := some false,
    sessionId := eventData.getField "session_id" }

/-- The `\x7b...call, phone: pending.phone || call.phone, ...\x7d` merge of
a claimed pending contact into the incoming record. -/
def mergePending (call : ParsedCall) (pending : PendingCall) : ParsedCall :=
  { call with
    phone := if pending.phone = "" then call.phone else pending.phone,
    contactName := strOr pending.contactName call.contactName,
    companyName := strOr pending.companyName call.companyName }

/-- Model of the webhook POST handler (API enrichment unavailable). -/
def ingestWebhook (body : JsonVal) (now : Nat) (s : Sys) : Sys :=
  if isCloudEvents body then
    let eventData := (body.getField "data").getD .null
    if truthy (eventData.getField "run_id") then
      let call := cloudEventsFallbackCall body now
      let claimed :=
        if isStrO (some (currentOf body)) "in-progress" ∧
           (call.phone = "" ∨ ¬ optTruthy call.contactName) then
          match popRecentPendingCall now 120000 s.pending with
          | (some pending, rest) => (mergePending call pending, rest)
          | (none, rest) => (call, rest)
        else (call, s.pending)
      { runs := upsertRun claimed.1 s.runs, pending := claimed.2 }
    else s
  else
    let run := ((nullishOf (body.getField "run")).orElse
      (fun _ => nullishOf (body.getField "data"))).getD body
    if truthy (run.getField "id") then
      match parseRun run with
      | .ok parsed => { s with runs := upsertRun parsed s.runs }
      | .error _ => s
    else s

/-! ## Well-formedness for the extractor (claim C2)

A structural predicate characterizing exactly the payloads on which
`extractToolCalls` does not throw: the payload and every iterated
session/message/event element is non-`null` (a plain property read on a
`null` element throws a `TypeError`), every iterated value is iterable,
and every serialized `function_call`'s arguments text decodes. -/

/-- Whether a value survives a `for..of` loop head. -/
def isIterable (v : JsonVal) : Bool :=
  match v with
  | .arr _ => true
  | .str _ => true
  | _ => false

/-- Whether one message element avoids the `TypeError` on `msg.type`. -/
def msgWF (msg : JsonVal) : Bool :=
  propAccessOk msg

/-- Whether one session element is non-`null`, its messages target is
iterable, and every message element is non-`null`. -/
def sessionWF (session : JsonVal) : Bool :=
  propAccessOk session && isIterable (msgsTarget session)
    && (iterListOf (msgsTarget session)).all msgWF

/-- Whether one event element is non-`null` and avoids the unguarded
`JSON.parse` failure. -/
def eventWF (event : JsonVal) : Bool :=
  propAccessOk event &&
  if isStrO (event.getField "integration_name") "AI" then
    if truthy (getFieldOpt (getFieldOpt (event.getField "output") "response")
        "function_call") then
      (jsonParse (argStringOf
        ((getFieldOpt (getFieldOpt (event.getField "output") "response")
          "function_call").getD .null))).isSome
    else true
  else true

/-- Whether a truthy top-level field, when present, iterates cleanly. -/
def topFieldWF (o : Option JsonVal) (inner : JsonVal → Bool) : Bool :=
  if truthy o then
    isIterable (o.getD .null) && (iterListOf (o.getD .null)).all inner
  else true

/-- Payloads on which `extractToolCalls` terminates normally. -/
def runWF (run : JsonVal) : Bool :=
  propAccessOk run &&
  topFieldWF (run.getField "sessions") sessionWF &&
  topFieldWF (run.getField "events") eventWF

/-- Whether an `Except` computation succeeded. -/
def isOkE {α : Type} (e : Except String α) : Bool :=
  match e with
  | .ok _ => true
  | .error _ => false

/-- Successful value of an `Except`, if any. -/
def okVal {α : Type} (e : Except String α) : Option α :=
  match e with
  | .ok a => some a
  | .error _ => none

/-! ## The outcome priority table as written in the spec (§4.2)

Used to state claim C4 as a refinement: `determineOutcome` equals
first-match lookup in this table. -/

/-- Priority table of §4.2, highest priority first. -/
def outcomePriorityTable : List (String × CallOutcome) :=
  [("escalate_to_commercial", .escalated),
   ("record_price_expectation", .price_recorded),
   ("record_qualified_lead", .qualified),
   ("schedule_callback", .callback),
   ("request_decision_maker_contact", .decision_maker),
   ("report_voicemail", .voicemail),
   ("close_polite", .closed)]

/-- First-match-wins classification by the spec's table. -/
def outcomeByTable (toolNames : List String) : CallOutcome :=
  ((outcomePriorityTable.find? (fun p => toolNames.contains p.1)).map Prod.snd).getD .unknown

/-! ## Concrete payloads and records used in counterexamples and witnesses -/

/-- An events[] payload whose serialized `function_call` carries an
`arguments` string that is not valid JSON. -/
def badArgsPayload : JsonVal :=
  jobj [("events", jarr [jobj [
    ("integration_name", .str "AI"),
    ("output", jobj [("response", jobj [("function_call", jobj [
      ("name", .str "lookup_account"), ("arguments", .str "not json")])])])]])]

/-- A legacy payload: completed run `r1` with one `record_qualified_lead`
tool call. -/
def qualifiedPayload : JsonVal :=
  jobj [("id", .str "r1"), ("status", .str "completed"),
    ("sessions", jarr [jobj [("messages", jarr [jobj [
      ("type", .str "tool_call"), ("tool_name", .str "record_qualified_lead")]])]])]

/-- The record `parseRun` produces for `qualifiedPayload`. -/
def qualifiedRecord : ParsedCall :=
  { id := "r1", phone := "", status := .str "completed", outcome := .qualified,
    phaseReached := 4, timestamp := .null, toolsCalled := ["record_qualified_lead"] }

/-- A CloudEvents payload: run `r1` moving to `in-progress`. -/
def inProgressEvent : JsonVal :=
  jobj [("specversion", .str "1.0"),
    ("data", jobj [("run_id", .str "r1"),
      ("status", jobj [("current", .str "in-progress")])])]

/-- A CloudEvents payload: run `r1` moving to `completed`. -/
def completedEvent : JsonVal :=
  jobj [("specversion", .str "1.0"),
    ("data", jobj [("run_id", .str "r1"),
      ("status", jobj [("current", .str "completed")])])]

/-- A legacy payload with two tool calls: `schedule_callback` then
`report_voicemail`, on a completed run. -/
def callbackVoicemailPayload : JsonVal :=
  jobj [("id", .str "r10"), ("status", .str "completed"),
    ("sessions", jarr [jobj [("messages", jarr [
      jobj [("type", .str "tool_call"), ("tool_name", .str "schedule_callback")],
      jobj [("type", .str "tool_call"), ("tool_name", .str "report_voicemail")]])]])]

/-- A legacy payload with no tool calls, on a completed run. -/
def noToolsPayload : JsonVal :=
  jobj [("id", .str "r8"), ("status", .str "completed")]

/-- A stored record used in witnesses. -/
def demoExisting : ParsedCall :=
  { id := "r1", phone := "+34600000000", contactName := some "Ana",
    companyName := some "Repsol", status := .str "completed", outcome := .qualified,
    phaseReached := 4, timestamp := .str "2024-01-01T00:00:00Z",
    toolsCalled := ["record_qualified_lead"] }

/-- An incoming record with empty phone and absent contact name, used in
witnesses. -/
def demoIncoming : ParsedCall :=
  { id := "r1", phone := "", contactName := none, companyName := some "Acme",
    status := .str "completed", outcome := .closed, phaseReached := 2,
    timestamp := .str "2024-01-01T00:10:00Z", toolsCalled := ["close_polite"] }

/-- A pending contact stored 119999 ms before the instant 1000000. -/
def pendingFresh : PendingCall :=
  { phone := "+34600000000", contactName := some "Ana", storedAt := 880001 }

/-- A pending contact stored 120001 ms before the instant 1000000. -/
def pendingStale : PendingCall :=
  { phone := "+34611111111", storedAt := 879999 }

/-- Pre-registration data used in the pending-reclaim counterexample. -/
def preCallAna : PendingData := { phone := "+34600000001", contactName := some "Ana" }

/-- Second pre-registration data used in the pending-reclaim
counterexample. -/
def preCallBob : PendingData := { phone := "+34600000002", contactName := some "Bob" }

/-- A partial update as the call-result route builds it for outcome
`qualified`. -/
def demoUpdates : RunUpdates :=
  { outcome := .qualified, status := .str "completed", phaseReached := 4,
    toolsCalled := ["qualified"] }

/-! ## Helper lemmas about the stores -/

theorem lookup_setRun_self (store : RunStore) (k : String) (v : ParsedCall) :
    (setRun store k v).lookup k = some v := by
  induction store with
  | nil => simp [setRun, List.lookup]
  | cons kv rest ih =>
    obtain ⟨k', v'⟩ := kv
    by_cases h : k' = k
    · subst h
      simp [setRun, List.lookup]
    · have hne : (k == k') = false := by
        simp only [beq_eq_false_iff_ne, ne_eq]
        exact fun hh => h hh.symm
      simp [setRun, h, List.lookup, ih, hne]

theorem setRun_setRun (store : RunStore) (k : String) (v w : ParsedCall) :
    setRun (setRun store k v) k w = setRun store k w := by
  induction store with
  | nil => simp [setRun]
  | cons kv rest ih =>
    obtain ⟨k', v'⟩ := kv
    by_cases h : k' = k
    · subst h
      simp [setRun]
    · simp [setRun, h, ih]

theorem mergeCall_id (existing call : ParsedCall) :
    (mergeCall existing call).id = call.id := rfl

theorem upsertRun_eq_of_lookup_none {store : RunStore} {c : ParsedCall}
    (h : store.lookup c.id = none) : upsertRun c store = setRun store c.id c := by
  unfold upsertRun
  rw [h]

theorem upsertRun_eq_of_lookup_some {store : RunStore} {c e : ParsedCall}
    (h : store.lookup c.id = some e) :
    upsertRun c store = setRun store c.id (mergeCall e c) := by
  unfold upsertRun
  rw [h]

theorem mergeCall_outcome (existing call : ParsedCall) :
    (mergeCall existing call).outcome = call.outcome := rfl

theorem mergeCall_self (c : ParsedCall) : mergeCall c c = c := by
  cases c with
  | mk cid phone contactName companyName status outcome phaseReached duration timestamp
      completedAt toolsCalled negotiationResult callbackDate callbackTime callbackNotes
      decisionMakerName purchaseType annualConsumption closeReason clientPrice
      sessionId isDemo =>
    simp only [mergeCall, strOr]
    by_cases hp : phone = "" <;>
      by_cases hc : optTruthy contactName <;>
      by_cases hco : optTruthy companyName <;>
      simp [hp, hc, hco]

theorem mergeCall_absorb (e c : ParsedCall) :
    mergeCall (mergeCall e c) c = mergeCall e c := by
  cases c with
  | mk cid phone contactName companyName status outcome phaseReached duration timestamp
      completedAt toolsCalled negotiationResult callbackDate callbackTime callbackNotes
      decisionMakerName purchaseType annualConsumption closeReason clientPrice
      sessionId isDemo =>
    simp only [mergeCall, strOr]
    by_cases hp : phone = "" <;>
      by_cases hc : optTruthy contactName <;>
      by_cases hco : optTruthy companyName <;>
      simp [hp, hc, hco]

/-! ## Claim C1 — monotonic enrichment of contact fields under upsert -/

/-- C1: for every stored record and later upsert with the same id, a
non-empty stored `phone`/`contactName`/`companyName` survives an
empty-or-absent incoming value, and a non-empty incoming value
overwrites. -/
theorem upsertRun_monotonic_enrichment (store : RunStore) (call existing : ParsedCall)
    (h : store.lookup call.id = some existing) :
    ∃ m, (upsertRun call store).lookup call.id = some m
      ∧ (call.phone = "" → m.phone = existing.phone)
      ∧ (call.phone ≠ "" → m.phone = call.phone)
      ∧ (optTruthy call.contactName = false → m.contactName = existing.contactName)
      ∧ (optTruthy call.contactName = true → m.contactName = call.contactName)
      ∧ (optTruthy call.companyName = false → m.companyName = existing.companyName)
      ∧ (optTruthy call.companyName = true → m.companyName = call.companyName) := by
  refine ⟨mergeCall existing call, ?_, ?_, ?_, ?_, ?_, ?_, ?_⟩
  · unfold upsertRun
    rw [h]
    exact lookup_setRun_self store call.id (mergeCall existing call)
  · intro hp
    simp [mergeCall, hp]
  · intro hp
    simp [mergeCall, hp]
  · intro hc
    simp [mergeCall, strOr, hc]
  · intro hc
    simp [mergeCall, strOr, hc]
  · intro hco
    simp [mergeCall, strOr, hco]
  · intro hco
    simp [mergeCall, strOr, hco]

/-- Witness for C1 at a concrete store: the incoming record has an empty
phone and absent contact name but a non-empty company name. -/
theorem upsertRun_monotonic_enrichment_witness :
    ∃ m, (upsertRun demoIncoming [("r1", demoExisting)]).lookup demoIncoming.id = some m
      ∧ (demoIncoming.phone = "" → m.phone = demoExisting.phone)
      ∧ (demoIncoming.phone ≠ "" → m.phone = demoIncoming.phone)
      ∧ (optTruthy demoIncoming.contactName = false → m.contactName = demoExisting.contactName)
      ∧ (optTruthy demoIncoming.contactName = true → m.contactName = demoIncoming.contactName)
      ∧ (optTruthy demoIncoming.companyName = false → m.companyName = demoExisting.companyName)
      ∧ (optTruthy demoIncoming.companyName = true → m.companyName = demoIncoming.companyName) :=
  upsertRun_monotonic_enrichment [("r1", demoExisting)] demoIncoming demoExisting rfl

/-! ## Claim C9 — idempotent re-ingestion -/

/-- C9: parsing a payload and upserting the resulting record twice leaves
the store exactly as upserting it once. -/
theorem upsertRun_idempotent (store : RunStore) (raw : JsonVal) (c : ParsedCall)
    (h : parseRun raw = .ok c) :
    upsertRun c (upsertRun c store) = upsertRun c store := by
  clear h
  cases hl : store.lookup c.id with
  | none =>
    rw [upsertRun_eq_of_lookup_none hl]
    have h2 : (setRun store c.id c).lookup c.id = some c :=
      lookup_setRun_self store c.id c
    rw [upsertRun_eq_of_lookup_some h2, mergeCall_self, setRun_setRun]
  | some e =>
    rw [upsertRun_eq_of_lookup_some hl]
    have h2 : (setRun store c.id (mergeCall e c)).lookup c.id = some (mergeCall e c) :=
      lookup_setRun_self store c.id (mergeCall e c)
    rw [upsertRun_eq_of_lookup_some h2, mergeCall_absorb, setRun_setRun]

/-- Witness for C9: re-ingesting the qualified-lead payload twice into the
empty store equals ingesting it once. -/
theorem upsertRun_idempotent_witness :
    upsertRun qualifiedRecord (upsertRun qualifiedRecord []) = upsertRun qualifiedRecord [] :=
  upsertRun_idempotent [] qualifiedPayload qualifiedRecord rfl

/-! ## Claim C6 — forward-only outcome progression -/

/-- Counterexample to C6: run `r1` reaches the terminal outcome
`qualified`, then a later CloudEvents `in-progress` event for the same id
(with API enrichment unavailable) rewinds the stored outcome to
`in_progress`. -/
theorem outcome_regression_counterexample :
    (((ingestWebhook qualifiedPayload 1000 ⟨[], []⟩).runs.lookup "r1").map
        (fun c => c.outcome) = some .qualified)
    ∧ (((ingestWebhook inProgressEvent 2000
          (ingestWebhook qualifiedPayload 1000 ⟨[], []⟩)).runs.lookup "r1").map
        (fun c => c.outcome) = some .in_progress)
    ∧ CallOutcome.qualified ≠ CallOutcome.in_progress := by
  refine ⟨rfl, rfl, by decide⟩

/-- C6 amended: `upsertRun` imposes no forward-only constraint: the stored
outcome after an upsert is always the incoming record's outcome, so a
terminal outcome persists exactly as long as every later ingested record
for the id carries a terminal (non-`in_progress`) outcome, and a later
`in_progress` record rewinds it. -/
theorem upsertRun_outcome_latest (store : RunStore) (c : ParsedCall) :
    ((upsertRun c store).lookup c.id).map (fun r => r.outcome) = some c.outcome
    ∧ (c.outcome ≠ .in_progress →
        ((upsertRun c store).lookup c.id).map (fun r => r.outcome) ≠ some .in_progress) := by
  have h1 : ((upsertRun c store).lookup c.id).map (fun r => r.outcome) = some c.outcome := by
    cases hl : store.lookup c.id with
    | none =>
      rw [upsertRun_eq_of_lookup_none hl, lookup_setRun_self store c.id c]
      rfl
    | some e =>
      rw [upsertRun_eq_of_lookup_some hl, lookup_setRun_self store c.id (mergeCall e c)]
      simp [mergeCall_outcome]
  refine ⟨h1, fun hne hcon => ?_⟩
  rw [h1] at hcon
  exact hne (Option.some_injective _ hcon)

/-- Witness for C6's amended statement at a concrete terminal record. -/
theorem upsertRun_outcome_latest_witness :
    ((upsertRun demoExisting []).lookup demoExisting.id).map
        (fun r => r.outcome) = some demoExisting.outcome
    ∧ ((upsertRun demoExisting []).lookup demoExisting.id).map
        (fun r => r.outcome) ≠ some .in_progress :=
  ⟨(upsertRun_outcome_latest [] demoExisting).1,
   (upsertRun_outcome_latest [] demoExisting).2 (by decide)⟩

/-! ## Helper lemmas for `popRecentPendingCall` (claim C5) -/

theorem betterPending_drop {now ttl i : Nat} {c : PendingCall}
    {best : Option (Nat × PendingCall)} (hq : ttl < now - c.storedAt) :
    betterPending now ttl i c best = best := by
  simp [betterPending, hq]

theorem betterPending_fresh_none {now ttl i : Nat} {c : PendingCall}
    (hq : ¬ ttl < now - c.storedAt) :
    betterPending now ttl i c none = some (i, c) := by
  simp [betterPending, hq]

theorem betterPending_fresh_lt {now ttl i b : Nat} {c cb : PendingCall}
    (hq : ¬ ttl < now - c.storedAt) (hlt : cb.storedAt < c.storedAt) :
    betterPending now ttl i c (some (b, cb)) = some (i, c) := by
  simp [betterPending, hq, hlt]

theorem betterPending_fresh_ge {now ttl i b : Nat} {c cb : PendingCall}
    (hq : ¬ ttl < now - c.storedAt) (hlt : ¬ cb.storedAt < c.storedAt) :
    betterPending now ttl i c (some (b, cb)) = some (b, cb) := by
  simp [betterPending, hq, hlt]

theorem findBestPending_none_iff (now ttl : Nat) :
    ∀ (l : List PendingCall) (i : Nat) (acc : Option (Nat × PendingCall)),
      findBestPending now ttl l i acc = none ↔
        acc = none ∧ ∀ c ∈ l, ttl < now - c.storedAt := by
  intro l
  induction l with
  | nil => intro i acc; simp [findBestPending]
  | cons x rest ih =>
    intro i acc
    simp only [findBestPending]
    by_cases hq : ttl < now - x.storedAt
    · rw [betterPending_drop hq, ih]
      constructor
      · rintro ⟨ha, hall⟩
        refine ⟨ha, fun c hc => ?_⟩
        rcases List.mem_cons.mp hc with rfl | hc
        · exact hq
        · exact hall c hc
      · rintro ⟨ha, hall⟩
        exact ⟨ha, fun c hc => hall c (List.mem_cons_of_mem x hc)⟩
    · cases acc with
      | none =>
        rw [betterPending_fresh_none hq, ih]
        constructor
        · rintro ⟨h1, _⟩
          exact absurd h1 (by simp)
        · rintro ⟨_, hall⟩
          exact absurd (hall x (List.mem_cons_self x rest)) hq
      | some p =>
        obtain ⟨b0, cb0⟩ := p
        constructor
        · intro h1
          by_cases hlt : cb0.storedAt < x.storedAt
          · rw [betterPending_fresh_lt hq hlt, ih] at h1
            exact absurd h1.1 (by simp)
          · rw [betterPending_fresh_ge hq hlt, ih] at h1
            exact absurd h1.1 (by simp)
        · rintro ⟨h1, _⟩
          exact absurd h1 (by simp)

theorem findBestPending_qualifies (now ttl : Nat) :
    ∀ (l : List PendingCall) (i : Nat) (acc : Option (Nat × PendingCall))
      (j : Nat) (c : PendingCall),
      (∀ b cb, acc = some (b, cb) → now - cb.storedAt ≤ ttl) →
      findBestPending now ttl l i acc = some (j, c) →
      now - c.storedAt ≤ ttl := by
  intro l
  induction l with
  | nil =>
    intro i acc j c hacc h
    exact hacc j c h
  | cons x rest ih =>
    intro i acc j c hacc h
    simp only [findBestPending] at h
    by_cases hq : ttl < now - x.storedAt
    · rw [betterPending_drop hq] at h
      exact ih (i + 1) acc j c hacc h
    · cases acc with
      | none =>
        rw [betterPending_fresh_none hq] at h
        refine ih (i + 1) (some (i, x)) j c ?_ h
        intro b cb hb
        have h2 : x = cb := congrArg Prod.snd (Option.some.inj hb)
        rw [← h2]
        exact Nat.le_of_not_lt hq
      | some p =>
        obtain ⟨b0, cb0⟩ := p
        by_cases hlt : cb0.storedAt < x.storedAt
        · rw [betterPending_fresh_lt hq hlt] at h
          refine ih (i + 1) (some (i, x)) j c ?_ h
          intro b cb hb
          have h2 : x = cb := congrArg Prod.snd (Option.some.inj hb)
          rw [← h2]
          exact Nat.le_of_not_lt hq
        · rw [betterPending_fresh_ge hq hlt] at h
          refine ih (i + 1) (some (b0, cb0)) j c ?_ h
          intro b cb hb
          have h2 : cb0 = cb := congrArg Prod.snd (Option.some.inj hb)
          rw [← h2]
          exact hacc b0 cb0 rfl

theorem findBestPending_max (now ttl : Nat) :
    ∀ (l : List PendingCall) (i : Nat) (acc : Option (Nat × PendingCall))
      (j : Nat) (c : PendingCall),
      findBestPending now ttl l i acc = some (j, c) →
      (∀ b cb, acc = some (b, cb) → cb.storedAt ≤ c.storedAt)
      ∧ (∀ x ∈ l, now - x.storedAt ≤ ttl → x.storedAt ≤ c.storedAt) := by
  intro l
  induction l with
  | nil =>
    intro i acc j c h
    have hacc : acc = some (j, c) := h
    refine ⟨fun b cb hb => ?_, by simp⟩
    rw [hb] at hacc
    have h2 : cb = c := congrArg Prod.snd (Option.some.inj hacc)
    rw [h2]
  | cons x rest ih =>
    intro i acc j c h
    simp only [findBestPending] at h
    by_cases hq : ttl < now - x.storedAt
    · rw [betterPending_drop hq] at h
      obtain ⟨H1, H2⟩ := ih (i + 1) acc j c h
      refine ⟨H1, fun y hy hqy => ?_⟩
      rcases List.mem_cons.mp hy with rfl | hy
      · exact absurd hqy (Nat.not_le_of_lt hq)
      · exact H2 y hy hqy
    · cases acc with
      | none =>
        rw [betterPending_fresh_none hq] at h
        obtain ⟨H1, H2⟩ := ih (i + 1) (some (i, x)) j c h
        have hx : x.storedAt ≤ c.storedAt := H1 i x rfl
        refine ⟨by simp, fun y hy hqy => ?_⟩
        rcases List.mem_cons.mp hy with rfl | hy
        · exact hx
        · exact H2 y hy hqy
      | some p =>
        obtain ⟨b0, cb0⟩ := p
        by_cases hlt : cb0.storedAt < x.storedAt
        · rw [betterPending_fresh_lt hq hlt] at h
          obtain ⟨H1, H2⟩ := ih (i + 1) (some (i, x)) j c h
          have hx : x.storedAt ≤ c.storedAt := H1 i x rfl
          refine ⟨fun b cb hb => ?_, fun y hy hqy => ?_⟩
          · have h2 : cb0 = cb := congrArg Prod.snd (Option.some.inj hb)
            rw [← h2]
            exact Nat.le_trans (Nat.le_of_lt hlt) hx
          · rcases List.mem_cons.mp hy with rfl | hy
            · exact hx
            · exact H2 y hy hqy
        · rw [betterPending_fresh_ge hq hlt] at h
          obtain ⟨H1, H2⟩ := ih (i + 1) (some (b0, cb0)) j c h
          have hcb : cb0.storedAt ≤ c.storedAt := H1 b0 cb0 rfl
          refine ⟨fun b cb hb => ?_, fun y hy hqy => ?_⟩
          · have h2 : cb0 = cb := congrArg Prod.snd (Option.some.inj hb)
            rw [← h2]
            exact hcb
          · rcases List.mem_cons.mp hy with rfl | hy
            · exact Nat.le_trans (Nat.le_of_not_lt hlt) hcb
            · exact H2 y hy hqy

theorem findBestPending_pos (now ttl : Nat) :
    ∀ (l : List PendingCall) (i : Nat) (acc : Option (Nat × PendingCall))
      (j : Nat) (c : PendingCall),
      (∀ b cb, acc = some (b, cb) → b < i) →
      findBestPending now ttl l i acc = some (j, c) →
      acc = some (j, c) ∨ (i ≤ j ∧ l[j - i]? = some c) := by
  intro l
  induction l with
  | nil =>
    intro i acc j c _ h
    exact Or.inl h
  | cons x rest ih =>
    intro i acc j c hacc h
    simp only [findBestPending] at h
    have key : ∀ (b1 : Nat) (c1 : PendingCall),
        (b1 = i ∧ c1 = x) ∨ (b1 < i ∧ acc = some (b1, c1)) →
        findBestPending now ttl rest (i + 1) (some (b1, c1)) = some (j, c) →
        acc = some (j, c) ∨ (i ≤ j ∧ (x :: rest)[j - i]? = some c) := by
      intro b1 c1 hcase hrec
      rcases ih (i + 1) (some (b1, c1)) j c
          (fun b cb hb => by
            have hb1 : b1 = b := congrArg Prod.fst (Option.some.inj hb)
            rcases hcase with ⟨he, _⟩ | ⟨hlt1, _⟩
            · omega
            · omega) hrec with hl | ⟨hij, hget⟩
      · rcases hcase with ⟨hb1, hc1⟩ | ⟨_, hb⟩
        · have hj : b1 = j := congrArg Prod.fst (Option.some.inj hl)
          have hc : c1 = c := congrArg Prod.snd (Option.some.inj hl)
          refine Or.inr ⟨by omega, ?_⟩
          have hji : j - i = 0 := by omega
          rw [hji]
          simp only [List.getElem?_cons_zero]
          rw [← hc, hc1]
        · rw [hl] at hb
          exact Or.inl hb
      · refine Or.inr ⟨Nat.le_of_succ_le hij, ?_⟩
        have hji : j - i = (j - (i + 1)) + 1 := by omega
        rw [hji]
        simpa using hget
    by_cases hq : ttl < now - x.storedAt
    · rw [betterPending_drop hq] at h
      rcases ih (i + 1) acc j c (fun b cb hb => Nat.lt_succ_of_lt (hacc b cb hb)) h with
        hl | ⟨hij, hget⟩
      · exact Or.inl hl
      · refine Or.inr ⟨Nat.le_of_succ_le hij, ?_⟩
        have hji : j - i = (j - (i + 1)) + 1 := by omega
        rw [hji]
        simpa using hget
    · cases acc with
      | none =>
        rw [betterPending_fresh_none hq] at h
        exact key i x (Or.inl ⟨rfl, rfl⟩) h
      | some p =>
        obtain ⟨b0, cb0⟩ := p
        by_cases hlt : cb0.storedAt < x.storedAt
        · rw [betterPending_fresh_lt hq hlt] at h
          exact key i x (Or.inl ⟨rfl, rfl⟩) h
        · rw [betterPending_fresh_ge hq hlt] at h
          exact key b0 cb0 (Or.inr ⟨hacc b0 cb0 rfl, rfl⟩) h

theorem getElem?_eraseIdx_split {α : Type} :
    ∀ (l : List α) (n : Nat) (c : α), l[n]? = some c →
      ∃ l1 l2, l = l1 ++ c :: l2 ∧ l1.length = n ∧ l.eraseIdx n = l1 ++ l2 := by
  intro l
  induction l with
  | nil => intro n c h; simp at h
  | cons x xs ih =>
    intro n c h
    cases n with
    | zero =>
      simp at h
      exact ⟨[], xs, by simp [h], rfl, by simp [List.eraseIdx]⟩
    | succ n =>
      simp at h
      obtain ⟨l1, l2, hsplit, hlen, herase⟩ := ih n c h
      exact ⟨x :: l1, l2, by simp [hsplit], by simp [hlen],
        by simp [List.eraseIdx, herase]⟩

/-! ## Claim C5 — `popRecentPendingCall` semantics -/

/-- C5: the pop selects an entry with maximal `storedAt` among entries not
older than the TTL, removes exactly that entry and returns it; when no
entry qualifies it returns none with the store unchanged; with TTL
120000 ms an entry stored 119999 ms ago is claimed while one stored
120001 ms ago is not claimed and remains. -/
theorem popRecentPendingCall_spec (now ttl : Nat) (store : List PendingCall) :
    (popRecentPendingCall now ttl store = (none, store) ↔
      ∀ c ∈ store, ttl < now - c.storedAt)
    ∧ (∀ c store', popRecentPendingCall now ttl store = (some c, store') →
        now - c.storedAt ≤ ttl
        ∧ (∀ x ∈ store, now - x.storedAt ≤ ttl → x.storedAt ≤ c.storedAt)
        ∧ ∃ l1 l2, store = l1 ++ c :: l2 ∧ store' = l1 ++ l2)
    ∧ popRecentPendingCall 1000000 120000 [pendingFresh, pendingStale]
        = (some pendingFresh, [pendingStale])
    ∧ popRecentPendingCall 1000000 120000 [pendingStale] = (none, [pendingStale]) := by
  refine ⟨⟨?_, ?_⟩, ?_, rfl, rfl⟩
  · intro h
    cases hfb : findBestPending now ttl store 0 none with
    | none => exact ((findBestPending_none_iff now ttl store 0 none).mp hfb).2
    | some p =>
      obtain ⟨i, c⟩ := p
      unfold popRecentPendingCall at h
      rw [hfb] at h
      simp at h
  · intro h
    unfold popRecentPendingCall
    rw [(findBestPending_none_iff now ttl store 0 none).mpr ⟨rfl, h⟩]
  · intro c store' h
    unfold popRecentPendingCall at h
    cases hfb : findBestPending now ttl store 0 none with
    | none =>
      rw [hfb] at h
      simp at h
    | some p =>
      obtain ⟨i, c0⟩ := p
      rw [hfb] at h
      simp only [Prod.mk.injEq, Option.some.injEq] at h
      obtain ⟨hc, hs⟩ := h
      subst hc
      have hqual : now - c0.storedAt ≤ ttl :=
        findBestPending_qualifies now ttl store 0 none i c0 (by simp) hfb
      have hmax := (findBestPending_max now ttl store 0 none i c0 hfb).2
      have hpos := findBestPending_pos now ttl store 0 none i c0 (by simp) hfb
      rcases hpos with habs | ⟨_, hget⟩
      · exact absurd habs (by simp)
      · obtain ⟨l1, l2, hsplit, _, herase⟩ :=
          getElem?_eraseIdx_split store i c0 (by simpa using hget)
        exact ⟨hqual, hmax, l1, l2, hsplit, by rw [← hs, herase]⟩

/-- Witness for C5: the 119999 ms-old pending contact is the claimed entry
of the concrete two-entry store. -/
theorem popRecentPendingCall_spec_witness :
    1000000 - pendingFresh.storedAt ≤ 120000
    ∧ (∀ x ∈ [pendingFresh, pendingStale],
        1000000 - x.storedAt ≤ 120000 → x.storedAt ≤ pendingFresh.storedAt)
    ∧ ∃ l1 l2, [pendingFresh, pendingStale] = l1 ++ pendingFresh :: l2
        ∧ [pendingStale] = l1 ++ l2 :=
  (popRecentPendingCall_spec 1000000 120000 [pendingFresh, pendingStale]).2.1
    pendingFresh [pendingStale] rfl

/-! ## Claim C4 — outcome classification priority -/

/-- C4: `determineOutcome` is first-match lookup in the fixed-priority
table of §4.2 (so the highest-priority tool present determines the
outcome), and in particular any tool list containing both
`schedule_callback` and `escalate_to_commercial` classifies as
`escalated`, never `callback`. -/
theorem determineOutcome_priority (names : List String) :
    determineOutcome names = outcomeByTable names
    ∧ ("schedule_callback" ∈ names → "escalate_to_commercial" ∈ names →
        determineOutcome names = .escalated ∧ determineOutcome names ≠ .callback) := by
  constructor
  · by_cases h1 : "escalate_to_commercial" ∈ names <;>
      by_cases h2 : "record_price_expectation" ∈ names <;>
      by_cases h3 : "record_qualified_lead" ∈ names <;>
      by_cases h4 : "schedule_callback" ∈ names <;>
      by_cases h5 : "request_decision_maker_contact" ∈ names <;>
      by_cases h6 : "close_polite" ∈ names <;>
      by_cases h7 : "report_voicemail" ∈ names <;>
      simp [determineOutcome, outcomeByTable, outcomePriorityTable, List.find?,
        h1, h2, h3, h4, h5, h6, h7]
  · intro _ he
    refine ⟨by simp [determineOutcome, he], by simp [determineOutcome, he]⟩

/-- Witness for C4 at the concrete tool-name pair from the spec. -/
theorem determineOutcome_priority_witness :
    determineOutcome ["schedule_callback", "escalate_to_commercial"] =
      outcomeByTable ["schedule_callback", "escalate_to_commercial"]
    ∧ (determineOutcome ["schedule_callback", "escalate_to_commercial"] = .escalated
       ∧ determineOutcome ["schedule_callback", "escalate_to_commercial"] ≠ .callback) :=
  ⟨(determineOutcome_priority ["schedule_callback", "escalate_to_commercial"]).1,
   (determineOutcome_priority ["schedule_callback", "escalate_to_commercial"]).2
     (by simp) (by simp)⟩

/-! ## Claim C8 — default classification when no tool matches -/

/-- Counterexample to C8: a completed run with no tool calls parses to
outcome `unknown` with `phaseReached` 0, not 3 (`inferPhase`'s default is
0; the phase-3 default lives only in the webhook fallback and in the
call-result route's `PHASE_FOR_OUTCOME` table). -/
theorem unknown_phase_counterexample :
    (okVal (parseRun noToolsPayload)).map (fun c => (c.outcome, c.phaseReached)) =
      some (.unknown, 0)
    ∧ (0 : Nat) ≠ 3 := by
  exact ⟨rfl, by decide⟩

/-- C8 amended: a tool-name list containing none of the seven
outcome-mapped tools classifies as `unknown` with `inferPhase` 0; the
separate `PHASE_FOR_OUTCOME` table of the call-result route maps `unknown`
to 3 (the two phase tables disagree, as §4.2 flags). -/
theorem unknown_outcome_phase_zero (names : List String)
    (h1 : "escalate_to_commercial" ∉ names)
    (h2 : "record_price_expectation" ∉ names)
    (h3 : "record_qualified_lead" ∉ names)
    (h4 : "schedule_callback" ∉ names)
    (h5 : "request_decision_maker_contact" ∉ names)
    (h6 : "report_voicemail" ∉ names)
    (h7 : "close_polite" ∉ names) :
    determineOutcome names = .unknown ∧ inferPhase names = 0
    ∧ PHASE_FOR_OUTCOME .unknown = 3 := by
  refine ⟨?_, ?_, rfl⟩
  · simp [determineOutcome, h1, h2, h3, h4, h5, h6, h7]
  · simp [inferPhase, h1, h2, h3, h4, h5, h6, h7]

/-- Witness for C8's amended statement at a concrete unmatched tool list. -/
theorem unknown_outcome_phase_zero_witness :
    determineOutcome ["other_tool"] = .unknown ∧ inferPhase ["other_tool"] = 0
    ∧ PHASE_FOR_OUTCOME .unknown = 3 :=
  unknown_outcome_phase_zero ["other_tool"] (by simp) (by simp) (by simp) (by simp)
    (by simp) (by simp) (by simp)

/-! ## Claim C10 — the phase table's own priority order -/

/-- C10: for the tool list `["schedule_callback", "report_voicemail"]` on a
non-running record, `parseRun` yields outcome `callback` with
`phaseReached` 0, because `inferPhase` probes `report_voicemail` before
`schedule_callback` even though `schedule_callback` outranks it for the
outcome; stated concretely and for every such tool list. -/
theorem phase_table_priority_differs :
    ((okVal (parseRun callbackVoicemailPayload)).map
        (fun c => (c.outcome, c.phaseReached)) = some (.callback, 0))
    ∧ (∀ names : List String, "schedule_callback" ∈ names → "report_voicemail" ∈ names →
        "escalate_to_commercial" ∉ names → "record_price_expectation" ∉ names →
        "record_qualified_lead" ∉ names →
        determineOutcome names = .callback ∧ inferPhase names = 0) := by
  refine ⟨rfl, fun names hs hv h1 h2 h3 => ?_⟩
  refine ⟨?_, ?_⟩
  · simp [determineOutcome, hs, h1, h2, h3]
  · simp [inferPhase, hv, h1, h2, h3]

/-- Witness for C10 at the concrete two-tool list. -/
theorem phase_table_priority_differs_witness :
    determineOutcome ["schedule_callback", "report_voicemail"] = .callback
    ∧ inferPhase ["schedule_callback", "report_voicemail"] = 0 :=
  phase_table_priority_differs.2 ["schedule_callback", "report_voicemail"]
    (by simp) (by simp) (by simp) (by simp) (by simp)

/-! ## Helper lemmas for `updateRecentRunByPhone` (claim C3) -/

theorem lastMatchByPhone_none {phone : String} :
    ∀ (l : RunStore) (i : Nat), (∀ kv ∈ l, kv.2.phone ≠ phone) →
      lastMatchByPhone l phone i = none := by
  intro l
  induction l with
  | nil => intro i _; rfl
  | cons kv rest ih =>
    intro i h
    obtain ⟨k, c⟩ := kv
    simp only [lastMatchByPhone]
    rw [ih (i + 1) (fun kv hkv => h kv (List.mem_cons_of_mem _ hkv))]
    simp [h (k, c) (List.mem_cons_self _ _)]

theorem lastMatchByPhone_split {phone : String} {k : String} {c : ParsedCall}
    (hc : c.phone = phone) :
    ∀ (l1 : RunStore) (l2 : RunStore) (i : Nat), (∀ kv ∈ l2, kv.2.phone ≠ phone) →
      lastMatchByPhone (l1 ++ (k, c) :: l2) phone i = some (i + l1.length, k, c) := by
  intro l1
  induction l1 with
  | nil =>
    intro l2 i h2
    simp only [List.nil_append, lastMatchByPhone]
    rw [lastMatchByPhone_none l2 (i + 1) h2]
    simp [hc]
  | cons kv rest ih =>
    intro l2 i h2
    obtain ⟨k', c'⟩ := kv
    simp only [List.cons_append, lastMatchByPhone, List.append_eq]
    rw [ih l2 (i + 1) h2]
    simp
    omega

theorem set_append_length {α : Type} :
    ∀ (l1 : List α) (x : α) (l2 : List α) (v : α),
      (l1 ++ x :: l2).set l1.length v = l1 ++ v :: l2 := by
  intro l1
  induction l1 with
  | nil => intro x l2 v; rfl
  | cons y rest ih =>
    intro x l2 v
    simp only [List.cons_append, List.length_cons, List.set, List.append_eq]
    rw [ih]

/-! ## Claim C3 — phone-indexed late update -/

/-- C3 (spec-modelled): when no stored record has the given phone,
`updateRecentRunByPhone` returns `false` and leaves the store unchanged;
when the store splits around a matching record with no later match, it
returns `true` and applies the partial update (which sets `outcome` and
`status`) to exactly that record, leaving every other entry untouched. -/
theorem updateRecentRunByPhone_spec (phone : String) (u : RunUpdates) (store : RunStore) :
    ((∀ kv ∈ store, kv.2.phone ≠ phone) →
      updateRecentRunByPhone phone u store = (false, store))
    ∧ (∀ (l1 : RunStore) (k : String) (c : ParsedCall) (l2 : RunStore),
        store = l1 ++ (k, c) :: l2 → c.phone = phone →
        (∀ kv ∈ l2, kv.2.phone ≠ phone) →
        updateRecentRunByPhone phone u store = (true, l1 ++ (k, applyUpdates c u) :: l2)
        ∧ (applyUpdates c u).outcome = u.outcome
        ∧ (applyUpdates c u).status = u.status) := by
  constructor
  · intro h
    unfold updateRecentRunByPhone
    rw [lastMatchByPhone_none store 0 h]
  · intro l1 k c l2 hsplit hc h2
    subst hsplit
    refine ⟨?_, rfl, rfl⟩
    unfold updateRecentRunByPhone
    rw [lastMatchByPhone_split hc l1 l2 0 h2]
    simp only [Nat.zero_add]
    rw [set_append_length]

/-- Witness for C3: the empty store yields `false`; a one-record store
with the matching phone yields `true` with the record updated. -/
theorem updateRecentRunByPhone_spec_witness :
    updateRecentRunByPhone "+34600000000" demoUpdates [] = (false, [])
    ∧ updateRecentRunByPhone "+34600000000" demoUpdates [("r1", demoExisting)] =
        (true, [("r1", applyUpdates demoExisting demoUpdates)]) :=
  ⟨(updateRecentRunByPhone_spec "+34600000000" demoUpdates []).1 (by simp),
   ((updateRecentRunByPhone_spec "+34600000000" demoUpdates [("r1", demoExisting)]).2
      [] "r1" demoExisting [] rfl rfl (by simp)).1⟩

/-! ## Helper lemmas for the extractor (claim C2) -/

theorem exceptBind_ok {α β : Type} (a : α) (f : α → Except String β) :
    ((Except.ok a : Except String α) >>= f) = f a := rfl

theorem exceptBind_err {α β : Type} (e : String) (f : α → Except String β) :
    ((Except.error e : Except String α) >>= f) = .error e := rfl

theorem isOkE_iterableOf (v : JsonVal) : isOkE (iterableOf v) = isIterable v := by
  cases v <;> rfl

theorem iterableOf_eq_ok {v : JsonVal} (h : isIterable v = true) :
    iterableOf v = .ok (iterListOf v) := by
  cases v <;> first | rfl | simp [isIterable] at h

theorem isOkE_collectE (f : JsonVal → Except String (List ToolCall)) :
    ∀ l : List JsonVal, isOkE (collectE f l) = l.all (fun x => isOkE (f x)) := by
  intro l
  induction l with
  | nil => rfl
  | cons x xs ih =>
    simp only [collectE, List.all_cons]
    cases hf : f x with
    | error e =>
      rw [exceptBind_err]
      simp [isOkE]
    | ok hd =>
      rw [exceptBind_ok]
      cases hr : collectE f xs with
      | error e =>
        rw [hr] at ih
        rw [exceptBind_err]
        simp only [isOkE] at ih ⊢
        rw [Bool.true_and]
        exact ih
      | ok rest =>
        rw [hr] at ih
        rw [exceptBind_ok]
        simp only [isOkE] at ih ⊢
        rw [Bool.true_and]
        exact ih

theorem isOkE_toolCallsOfMsg (m : JsonVal) :
    isOkE (toolCallsOfMsg m) = msgWF m := by
  unfold toolCallsOfMsg msgWF
  cases hpa : propAccessOk m with
  | false => simp [isOkE]
  | true => simp [isOkE]

theorem isOkE_toolCallsOfSession (s : JsonVal) :
    isOkE (toolCallsOfSession s) = sessionWF s := by
  unfold toolCallsOfSession sessionWF
  cases hpa : propAccessOk s with
  | false => simp [isOkE]
  | true =>
    rw [if_pos rfl]
    simp only [Bool.true_and]
    cases hi : isIterable (msgsTarget s) with
    | true =>
      rw [iterableOf_eq_ok hi]
      simp only [hi, Bool.true_and]
      rw [show ((Except.ok (iterListOf (msgsTarget s)) : Except String (List JsonVal)) >>=
          fun msgs => collectE toolCallsOfMsg msgs) =
          collectE toolCallsOfMsg (iterListOf (msgsTarget s)) from rfl]
      rw [isOkE_collectE]
      congr 1
      funext x
      rw [isOkE_toolCallsOfMsg]
    | false =>
      cases hv : msgsTarget s <;>
        simp [hv, isIterable, isOkE, exceptBind_ok, exceptBind_err, iterableOf] <;>
        simp [hv, isIterable] at hi

theorem isOkE_toolCallsOfEvent (e : JsonVal) :
    isOkE (toolCallsOfEvent e) = eventWF e := by
  unfold toolCallsOfEvent eventWF
  cases hpa : propAccessOk e with
  | false => simp [isOkE]
  | true =>
    rw [if_pos rfl]
    simp only [Bool.true_and]
    by_cases hAI : isStrO (e.getField "integration_name") "AI" = true
    · simp only [hAI, if_true]
      by_cases hfc : truthy (getFieldOpt (getFieldOpt (e.getField "output") "response")
          "function_call") = true
      · simp only [hfc, if_true]
        cases hp : jsonParse (argStringOf
            ((getFieldOpt (getFieldOpt (e.getField "output") "response")
              "function_call").getD .null)) with
        | none => simp [isOkE, exceptBind_ok, exceptBind_err, hp]
        | some params => simp [isOkE, exceptBind_ok, exceptBind_err, hp]
      · simp only [eq_false_of_ne_true hfc, if_false]
        simp [isOkE, exceptBind_ok, exceptBind_err, eq_false_of_ne_true hfc]
    · simp [isOkE, exceptBind_ok, exceptBind_err, eq_false_of_ne_true hAI]

theorem isOkE_sessionsToolCalls (run : JsonVal) :
    isOkE (sessionsToolCalls run) =
      (propAccessOk run && topFieldWF (run.getField "sessions") sessionWF) := by
  unfold sessionsToolCalls topFieldWF
  cases hpa : propAccessOk run with
  | false => simp [isOkE]
  | true =>
    rw [if_pos rfl]
    simp only [Bool.true_and]
    by_cases ht : truthy (run.getField "sessions") = true
    · simp only [ht, if_true]
      cases hi : isIterable ((run.getField "sessions").getD .null) with
      | true =>
        rw [iterableOf_eq_ok hi]
        simp only [hi, Bool.true_and]
        rw [show ((Except.ok (iterListOf ((run.getField "sessions").getD .null)) :
              Except String (List JsonVal)) >>=
            fun sessions => collectE toolCallsOfSession sessions) =
            collectE toolCallsOfSession
              (iterListOf ((run.getField "sessions").getD .null)) from rfl]
        rw [isOkE_collectE]
        congr 1
        funext x
        rw [isOkE_toolCallsOfSession]
      | false =>
        cases hv : (run.getField "sessions").getD .null <;>
          simp [hv, isIterable, isOkE, exceptBind_ok, exceptBind_err, iterableOf] <;>
          simp [hv, isIterable] at hi
    · simp [eq_false_of_ne_true ht, isOkE]

theorem isOkE_eventsToolCalls (run : JsonVal) :
    isOkE (eventsToolCalls run) =
      (propAccessOk run && topFieldWF (run.getField "events") eventWF) := by
  unfold eventsToolCalls topFieldWF
  cases hpa : propAccessOk run with
  | false => simp [isOkE]
  | true =>
    rw [if_pos rfl]
    simp only [Bool.true_and]
    by_cases ht : truthy (run.getField "events") = true
    · simp only [ht, if_true]
      cases hi : isIterable ((run.getField "events").getD .null) with
      | true =>
        rw [iterableOf_eq_ok hi]
        simp only [hi, Bool.true_and]
        rw [show ((Except.ok (iterListOf ((run.getField "events").getD .null)) :
              Except String (List JsonVal)) >>=
            fun events => collectE toolCallsOfEvent events) =
            collectE toolCallsOfEvent
              (iterListOf ((run.getField "events").getD .null)) from rfl]
        rw [isOkE_collectE]
        congr 1
        funext x
        rw [isOkE_toolCallsOfEvent]
      | false =>
        cases hv : (run.getField "events").getD .null <;>
          simp [hv, isIterable, isOkE, exceptBind_ok, exceptBind_err, iterableOf] <;>
          simp [hv, isIterable] at hi
    · simp [eq_false_of_ne_true ht, isOkE]

/-! ## Claim C2 — extraction never throws -/

/-- Counterexample to C2: an events[] payload carrying a serialized
`function_call` whose `arguments` string is not valid JSON makes
`extractToolCalls` raise (the `JSON.parse` call is not wrapped in a
try/catch), instead of swallowing the failure and dropping the
invocation. -/
theorem extractToolCalls_throws_on_bad_arguments :
    extractToolCalls badArgsPayload = .error "SyntaxError: Unexpected token in JSON"
    ∧ isOkE (extractToolCalls badArgsPayload) = false := ⟨rfl, rfl⟩

/-- C2 amended: extraction terminates normally exactly on payloads that
are non-`null`, whose `sessions`/`events` values (when truthy) are
iterable, whose iterated session/message/event elements are non-`null`
(a plain property read on a `null` element — `session.messages`,
`msg.type`, `event.integration_name` — throws a `TypeError`), and whose
AI-event `function_call` arguments decode — a malformed arguments string
makes the extraction raise rather than drop the invocation.  A non-`null`
payload with neither a truthy `sessions` nor a truthy `events` field (an
unknown shape) yields the empty invocation list, and each of the three
`null`-element shapes raises concretely. -/
theorem extractToolCalls_ok_iff_wellFormed (run : JsonVal) :
    isOkE (extractToolCalls run) = runWF run
    ∧ (propAccessOk run = true →
        truthy (run.getField "sessions") = false →
        truthy (run.getField "events") = false →
        extractToolCalls run = .ok [])
    ∧ extractToolCalls (jobj [("sessions", jarr [.null])]) =
        .error "TypeError: Cannot read properties of null"
    ∧ extractToolCalls (jobj [("events", jarr [.null])]) =
        .error "TypeError: Cannot read properties of null"
    ∧ extractToolCalls (jobj [("sessions", jarr [jobj [("messages", jarr [.null])]])]) =
        .error "TypeError: Cannot read properties of null" := by
  refine ⟨?_, ?_, rfl, rfl, rfl⟩
  · have hA := isOkE_sessionsToolCalls run
    have hB := isOkE_eventsToolCalls run
    unfold extractToolCalls runWF
    cases hSA : sessionsToolCalls run with
    | error e =>
      rw [hSA] at hA
      simp only [isOkE] at hA
      rw [exceptBind_err, ← hA]
      simp [isOkE]
    | ok v2 =>
      rw [hSA] at hA
      simp only [isOkE] at hA
      have hA2 := hA.symm
      simp only [Bool.and_eq_true] at hA2
      obtain ⟨hpa, htopA⟩ := hA2
      rw [exceptBind_ok]
      cases hSB : eventsToolCalls run with
      | error e =>
        rw [hSB] at hB
        simp only [isOkE] at hB
        simp only [hpa, Bool.true_and] at hB
        rw [exceptBind_err]
        simp [isOkE, hpa, htopA, ← hB]
      | ok v1 =>
        rw [hSB] at hB
        simp only [isOkE] at hB
        have hB2 := hB.symm
        simp only [Bool.and_eq_true] at hB2
        obtain ⟨-, htopB⟩ := hB2
        rw [exceptBind_ok]
        simp [isOkE, hpa, htopA, htopB]
  · intro hpa hs he
    unfold extractToolCalls sessionsToolCalls eventsToolCalls
    simp [hpa, hs, he, exceptBind_ok]

/-- Witness for C2's amended statement at an unknown-shape payload. -/
theorem extractToolCalls_ok_iff_wellFormed_witness :
    isOkE (extractToolCalls (jobj [("foo", .str "bar")])) =
      runWF (jobj [("foo", .str "bar")])
    ∧ extractToolCalls (jobj [("foo", .str "bar")]) = .ok [] :=
  ⟨(extractToolCalls_ok_iff_wellFormed (jobj [("foo", .str "bar")])).1,
   (extractToolCalls_ok_iff_wellFormed (jobj [("foo", .str "bar")])).2.1 rfl rfl rfl⟩

/-! ## Helper lemmas for the webhook pending claim (claim C7) -/

theorem popRecentPendingCall_none_eq {now ttl : Nat} {st r : List PendingCall}
    (h : popRecentPendingCall now ttl st = (none, r)) : r = st := by
  unfold popRecentPendingCall at h
  cases hfb : findBestPending now ttl st 0 none with
  | none =>
    rw [hfb] at h
    simp only [Prod.mk.injEq] at h
    exact h.2.symm
  | some p =>
    obtain ⟨i, c⟩ := p
    rw [hfb] at h
    simp at h

theorem ingestWebhook_pending_eq (body : JsonVal) (now : Nat) (s : Sys) :
    (ingestWebhook body now s).pending = s.pending ∨
    (ingestWebhook body now s).pending = (popRecentPendingCall now 120000 s.pending).2 := by
  unfold ingestWebhook
  by_cases hce : isCloudEvents body = true
  · rw [if_pos hce]
    simp only []
    by_cases hrid : truthy (((body.getField "data").getD .null).getField "run_id") = true
    · rw [if_pos hrid]
      by_cases hcond : isStrO (some (currentOf body)) "in-progress" = true ∧
          ((cloudEventsFallbackCall body now).phone = "" ∨
            ¬ optTruthy (cloudEventsFallbackCall body now).contactName = true)
      · rw [if_pos hcond]
        rcases hpop : popRecentPendingCall now 120000 s.pending with ⟨io, rest⟩
        cases io with
        | none => right; rfl
        | some p => right; rfl
      · rw [if_neg hcond]
        left
        rfl
    · rw [if_neg hrid]
      left
      rfl
  · rw [if_neg hce]
    simp only []
    by_cases hid : truthy
        (((((nullishOf (body.getField "run")).orElse
          (fun _ => nullishOf (body.getField "data"))).getD body).getField "id")) = true
    · rw [if_pos hid]
      cases hp : parseRun (((nullishOf (body.getField "run")).orElse
          (fun _ => nullishOf (body.getField "data"))).getD body) with
      | ok parsed => left; rfl
      | error e => left; rfl
    · rw [if_neg hid]
      left
      rfl

/-! ## Claim C7 — pending-contact correlation at most once per record -/

/-- Counterexample to C7: after run `r1`'s first in-progress event claims
the pre-registered contact "Ana", registering a second contact and
re-delivering an in-progress event for the SAME run claims the second
contact too and overwrites the previously merged phone — the claim is
re-attempted because the guard checks the incoming event's record (always
phoneless on the fallback path), not the stored one. -/
theorem pending_reclaim_counterexample :
    ((((ingestWebhook inProgressEvent 10
          ⟨[], storePendingCall preCallAna 0 []⟩).runs.lookup "r1").map
        (fun c => c.phone)) = some "+34600000001")
    ∧ ((((ingestWebhook inProgressEvent 30
          { ingestWebhook inProgressEvent 10 ⟨[], storePendingCall preCallAna 0 []⟩ with
            pending := storePendingCall preCallBob 20
              (ingestWebhook inProgressEvent 10
                ⟨[], storePendingCall preCallAna 0 []⟩).pending }).runs.lookup "r1").map
        (fun c => c.phone)) = some "+34600000002")
    ∧ (ingestWebhook inProgressEvent 30
          { ingestWebhook inProgressEvent 10 ⟨[], storePendingCall preCallAna 0 []⟩ with
            pending := storePendingCall preCallBob 20
              (ingestWebhook inProgressEvent 10
                ⟨[], storePendingCall preCallAna 0 []⟩).pending }).pending = [] :=
  ⟨rfl, rfl, rfl⟩

/-- C7 amended: each webhook ingestion step claims at most one pending
contact — the pending store is either untouched or exactly one entry is
popped from it — and no claim is attempted on a non-CloudEvents payload or
on a CloudEvents event whose status is not "in-progress"; but the
at-most-once property holds per ingestion step, not per record id: a later
in-progress event for the same id attempts the claim again. -/
theorem ingestWebhook_pending_at_most_once (body : JsonVal) (now : Nat) (s : Sys) :
    ((ingestWebhook body now s).pending = s.pending
      ∨ ∃ p, popRecentPendingCall now 120000 s.pending =
          (some p, (ingestWebhook body now s).pending))
    ∧ (isCloudEvents body = true →
        isStrO (some (currentOf body)) "in-progress" = false →
        (ingestWebhook body now s).pending = s.pending)
    ∧ (isCloudEvents body = false → (ingestWebhook body now s).pending = s.pending) := by
  refine ⟨?_, ?_, ?_⟩
  · rcases ingestWebhook_pending_eq body now s with h | h
    · exact Or.inl h
    · cases hio : (popRecentPendingCall now 120000 s.pending).1 with
      | none =>
        left
        rw [h]
        exact popRecentPendingCall_none_eq
          (by rw [← hio, ← Prod.mk.eta (p := popRecentPendingCall now 120000 s.pending)])
      | some p =>
        right
        refine ⟨p, ?_⟩
        rw [← hio, h]
  · intro hce hip
    unfold ingestWebhook
    rw [if_pos hce]
    simp only []
    by_cases hrid : truthy (((body.getField "data").getD .null).getField "run_id") = true
    · rw [if_pos hrid]
      have hcond : ¬ (isStrO (some (currentOf body)) "in-progress" = true ∧
          ((cloudEventsFallbackCall body now).phone = "" ∨
            ¬ optTruthy (cloudEventsFallbackCall body now).contactName = true)) := by
        intro hc
        rw [hip] at hc
        exact absurd hc.1 (by simp)
      rw [if_neg hcond]
    · rw [if_neg hrid]
  · intro hce
    unfold ingestWebhook
    have hce2 : ¬ isCloudEvents body = true := by
      rw [hce]
      simp
    rw [if_neg hce2]
    simp only []
    by_cases hid : truthy
        (((((nullishOf (body.getField "run")).orElse
          (fun _ => nullishOf (body.getField "data"))).getD body).getField "id")) = true
    · rw [if_pos hid]
      cases hp : parseRun (((nullishOf (body.getField "run")).orElse
          (fun _ => nullishOf (body.getField "data"))).getD body) with
      | ok parsed => rfl
      | error e => rfl
    · rw [if_neg hid]

/-- Witness for C7's amended statement: a completed-status CloudEvents
payload leaves a non-empty pending store untouched. -/
theorem ingestWebhook_pending_at_most_once_witness :
    (ingestWebhook completedEvent 5 ⟨[], [pendingFresh]⟩).pending = [pendingFresh] :=
  (ingestWebhook_pending_at_most_once completedEvent 5 ⟨[], [pendingFresh]⟩).2.1 rfl rfl

end Repsol
